import Mathlib

/-!
Shallow embedding of `scripts/mock_kg_gen.py` (the Mock Generator of the
knowledge-graph demo repository) and proofs of the specified properties.

Modelling conventions:
* Input text is a `List Char`.  The Python regex `\b[A-Z][a-z]+\b` (with the
  default word characters restricted to ASCII alphanumerics and underscore)
  matches exactly the maximal word-character runs that consist of one
  uppercase ASCII letter followed by one or more lowercase ASCII letters.
* Python's `set(words)` iterates in an unspecified order; we model it as
  first-occurrence deduplication (`pySetList`).  All proved properties are
  independent of the iteration order.
* Python list indexing raises `IndexError` when out of bounds; we model the
  triple-building loop in `Option`, returning `none` exactly when an index
  would be out of bounds, so that totality (absence of errors) is a theorem
  rather than an artifact of the embedding.
* Decimal rendering of ids (`f"e{i+1}"`) is modelled by `natToStr`, built
  from base-10 digits.
-/

/-- An entity record `{id, label, type}` as built by `extract_entities`. -/
structure Entity where
  id : String
  label : String
  type : String
deriving DecidableEq, Repr

/-- A triple record `{subject, predicate, object}` as built by
`extract_relations`. -/
structure Triple where
  subject : String
  predicate : String
  object : String
deriving DecidableEq, Repr

def defaultEntity : Entity := ⟨"", "", ""⟩

def defaultTriple : Triple := ⟨"", "", ""⟩

/-- The days lookup list of `extract_entities`. -/
def days : List String :=
  ["Monday", "Tuesday", "Wednesday", "Thursday", "Friday", "Saturday", "Sunday"]

/-- The months lookup list of `extract_entities`. -/
def months : List String :=
  ["January", "February", "March", "April", "May", "June", "July",
   "August", "September", "October", "November", "December"]

/-- The cities lookup list of `extract_entities`. -/
def cities : List String :=
  ["Paris", "London", "Berlin", "Rome", "Madrid", "Vienna", "Amsterdam"]

/-- The countries lookup list of `extract_entities`. -/
def countries : List String :=
  ["France", "Germany", "Italy", "Spain", "Netherlands", "Austria", "UK", "United"]

/-- The fixed relation-type list of `extract_relations`. -/
def relation_types : List String :=
  ["relates_to", "part_of", "associated_with", "belongs_to"]

/-- A word character of the regex `\b` boundary (ASCII fragment of `\w`). -/
def isWordChar (c : Char) : Bool :=
  c.isAlphanum || c = '_'

/-- Split text into its maximal runs of word characters, in order.  `cur`
accumulates the current run in reverse; a non-word character (or the end of
the text) flushes it. -/
def wordRunsAux : List Char → List Char → List (List Char)
  | [], cur => if cur.isEmpty then [] else [cur.reverse]
  | c :: cs, cur =>
    if isWordChar c then wordRunsAux cs (c :: cur)
    else if cur.isEmpty then wordRunsAux cs [] else cur.reverse :: wordRunsAux cs []

/-- The maximal word-character runs of the text, in order. -/
def wordRuns (text : List Char) : List (List Char) :=
  wordRunsAux text []

/-- Does a word-character run match `[A-Z][a-z]+` in full?  The regex's `\b`
boundaries force any match of `\b[A-Z][a-z]+\b` to span a maximal run. -/
def isCapWord : List Char → Bool
  | [] => false
  | c :: rest => c.isUpper && !rest.isEmpty && rest.all Char.isLower

/-- The list returned by `re.findall(r'\b[A-Z][a-z]+\b', text)`, in order. -/
def capWords (text : List Char) : List String :=
  ((wordRuns text).filter isCapWord).map (fun r => String.mk r)

/-- First-occurrence deduplication, modelling iteration over `set(words)`. -/
def pySetList (ws : List String) : List String :=
  ws.foldl (fun acc w => if w ∈ acc then acc else acc ++ [w]) []

/-- Base-10 digits, least significant first, by structural recursion on a
fuel bound (`decDigitsAux n n = Nat.digits 10 n`, proved below). -/
def decDigitsAux : Nat → Nat → List Nat
  | _, 0 => []
  | 0, _ + 1 => []
  | f + 1, n + 1 => ((n + 1) % 10) :: decDigitsAux f ((n + 1) / 10)

/-- Decimal rendering of a natural number (Python `str(n)`). -/
def natToStr (n : Nat) : String :=
  if n = 0 then "0" else String.mk (((decDigitsAux n n).reverse).map Nat.digitChar)

/-- The id string `f"e{i+1}"` for the entity at 0-based position `i`. -/
def entityId (i : Nat) : String :=
  "e" ++ natToStr (i + 1)

/-- The type heuristic of `extract_entities`: membership in the four fixed
lookup lists, defaulting to `"Concept"`. -/
def entityTypeOf (word : String) : String :=
  if word ∈ days then "Day"
  else if word ∈ months then "Month"
  else if word ∈ cities then "City"
  else if word ∈ countries then "Country"
  else "Concept"

/-- `extract_entities(text)`: regex scan, set-deduplication, sequential ids,
type lookup.  Returns `(entities, entity_map)`. -/
def extract_entities (text : List Char) : List Entity × List (String × String) :=
  let words := capWords text
  let uniq := pySetList words
  let entities := uniq.enum.map
    (fun p => { id := entityId p.1, label := p.2, type := entityTypeOf p.2 : Entity })
  let entity_map := uniq.enum.map (fun p => (p.2, entityId p.1))
  (entities, entity_map)

/-- The `selected_relations` prefix chosen by `extract_relations` for an
entity count of at least 2. -/
def selectedRelations (entities : List Entity) : List String :=
  if entities.length = 2 then relation_types.take 1
  else relation_types.take (min (entities.length - 1) relation_types.length)

/-- The triple-building loop of `extract_relations`, iterating
`i = 0 .. n-1` and appending one triple per step.  Each list access is
modelled in `Option`: `none` means an `IndexError`. -/
def buildTriples (entities : List Entity) (sel : List String) : Nat → Option (List Triple)
  | 0 => some []
  | m + 1 => do
    let rest ← buildTriples entities sel m
    let subject_entity ← entities[m]?
    let object_entity ← entities[(m + 1) % entities.length]?
    let relation ← sel[m % sel.length]?
    some (rest ++ [{ subject := subject_entity.id, predicate := relation,
                     object := object_entity.id }])

/-- `extract_relations(entities, entity_map)`: guard on fewer than 2
entities, relation-type prefix selection, and the capped triple loop.
(`entity_map` is accepted and unused, as in the source.) -/
def extract_relations (entities : List Entity)
    (entity_map : List (String × String)) : Option (List String × List Triple) :=
  if entities.length < 2 then some ([], [])
  else
    match buildTriples entities (selectedRelations entities)
        (min (entities.length - 1) 5) with
    | none => none
    | some triples => some (selectedRelations entities, triples)

/-- The triple produced at loop index `i` (total closed form, used to state
what `buildTriples` computes when every access is in bounds). -/
def tripleAt (entities : List Entity) (sel : List String) (i : Nat) : Triple :=
  { subject := (entities.getD i defaultEntity).id
  , predicate := sel.getD (i % sel.length) ""
  , object := (entities.getD ((i + 1) % entities.length) defaultEntity).id }

/-! ### Helper lemmas -/

theorem digitChar_inj_of_lt (a b : Nat) (ha : a < 10) (hb : b < 10)
    (h : Nat.digitChar a = Nat.digitChar b) : a = b := by
  interval_cases a <;> interval_cases b <;> revert h <;> decide

theorem map_digitChar_inj : ∀ l1 l2 : List Nat, (∀ x ∈ l1, x < 10) → (∀ x ∈ l2, x < 10) →
    l1.map Nat.digitChar = l2.map Nat.digitChar → l1 = l2
  | [], [], _, _, _ => rfl
  | [], _ :: _, _, _, h => by simp at h
  | _ :: _, [], _, _, h => by simp at h
  | a :: l1, b :: l2, h1, h2, h => by
    simp only [List.map_cons, List.cons.injEq] at h
    have hab : a = b :=
      digitChar_inj_of_lt a b (h1 a (by simp)) (h2 b (by simp)) h.1
    have : l1 = l2 :=
      map_digitChar_inj l1 l2 (fun x hx => h1 x (by simp [hx]))
        (fun x hx => h2 x (by simp [hx])) h.2
    rw [hab, this]

theorem decDigitsAux_eq_digits (fuel : Nat) :
    ∀ n, n ≤ fuel → decDigitsAux fuel n = Nat.digits 10 n := by
  induction fuel with
  | zero =>
    intro n hn
    interval_cases n
    simp [decDigitsAux]
  | succ f ih =>
    intro n hn
    match n with
    | 0 => simp [decDigitsAux]
    | m + 1 =>
      rw [decDigitsAux, ih ((m + 1) / 10)
          (by have := Nat.div_lt_self (Nat.succ_pos m) (by norm_num : 1 < 10); omega),
        Nat.digits_def' (by norm_num : 1 < 10) (Nat.succ_pos m)]

theorem natToStr_inj (m n : Nat) (hm : 0 < m) (hn : 0 < n)
    (h : natToStr m = natToStr n) : m = n := by
  unfold natToStr at h
  rw [if_neg (by omega), if_neg (by omega),
    decDigitsAux_eq_digits m m (Nat.le_refl m),
    decDigitsAux_eq_digits n n (Nat.le_refl n)] at h
  have hd : ((Nat.digits 10 m).reverse).map Nat.digitChar
      = ((Nat.digits 10 n).reverse).map Nat.digitChar := congrArg String.data h
  have hrev : (Nat.digits 10 m).reverse = (Nat.digits 10 n).reverse :=
    map_digitChar_inj _ _
      (fun x hx => Nat.digits_lt_base (by norm_num) (List.mem_reverse.mp hx))
      (fun x hx => Nat.digits_lt_base (by norm_num) (List.mem_reverse.mp hx)) hd
  have hdig : Nat.digits 10 m = Nat.digits 10 n := List.reverse_injective hrev
  calc m = Nat.ofDigits 10 (Nat.digits 10 m) := (Nat.ofDigits_digits 10 m).symm
    _ = Nat.ofDigits 10 (Nat.digits 10 n) := by rw [hdig]
    _ = n := Nat.ofDigits_digits 10 n

theorem entityId_inj : Function.Injective entityId := by
  intro i j h
  unfold entityId at h
  have hd : 'e' :: (natToStr (i + 1)).data = 'e' :: (natToStr (j + 1)).data := by
    simpa [String.data_append] using congrArg String.data h
  have : natToStr (i + 1) = natToStr (j + 1) :=
    String.ext (List.cons_injective hd)
  have := natToStr_inj (i + 1) (j + 1) (by omega) (by omega) this
  omega

theorem pySetList_foldl_nodup (ws : List String) :
    ∀ acc : List String, acc.Nodup →
      (ws.foldl (fun acc w => if w ∈ acc then acc else acc ++ [w]) acc).Nodup := by
  induction ws with
  | nil => intro acc h; simpa using h
  | cons w ws ih =>
    intro acc h
    simp only [List.foldl_cons]
    by_cases hw : w ∈ acc
    · rw [if_pos hw]; exact ih acc h
    · rw [if_neg hw]
      exact ih _ (by simp [List.nodup_append, h, List.disjoint_singleton, hw])

theorem pySetList_nodup (ws : List String) : (pySetList ws).Nodup :=
  pySetList_foldl_nodup ws [] List.nodup_nil

theorem pySetList_foldl_length_le (ws : List String) :
    ∀ acc : List String,
      (ws.foldl (fun acc w => if w ∈ acc then acc else acc ++ [w]) acc).length
        ≤ acc.length + ws.length := by
  induction ws with
  | nil => intro acc; simp
  | cons w ws ih =>
    intro acc
    simp only [List.foldl_cons]
    by_cases hw : w ∈ acc
    · rw [if_pos hw]
      calc _ ≤ acc.length + ws.length := ih acc
        _ ≤ acc.length + (w :: ws).length := by
              simp only [List.length_cons]; omega
    · rw [if_neg hw]
      calc _ ≤ (acc ++ [w]).length + ws.length := ih _
        _ ≤ acc.length + (w :: ws).length := by
              simp only [List.length_append, List.length_cons,
                List.length_nil]; omega

theorem pySetList_length_le (ws : List String) :
    (pySetList ws).length ≤ ws.length := by
  simpa using pySetList_foldl_length_le ws []

theorem buildTriples_eq (es : List Entity) (sel : List String) (n : Nat)
    (hn : n ≤ es.length) (h0 : 0 < es.length) (hsel : 0 < sel.length) :
    buildTriples es sel n = some ((List.range n).map (tripleAt es sel)) := by
  induction n with
  | zero => rfl
  | succ m ih =>
    have hm : m < es.length := by omega
    have h1 : (m + 1) % es.length < es.length := Nat.mod_lt _ h0
    have h2 : m % sel.length < sel.length := Nat.mod_lt _ hsel
    rw [buildTriples, ih (by omega)]
    simp only [List.getElem?_eq_getElem hm, List.getElem?_eq_getElem h1,
      List.getElem?_eq_getElem h2, Option.bind_eq_bind, Option.some_bind,
      List.range_succ, List.map_append, List.map_cons, List.map_nil,
      Option.some.injEq, List.append_cancel_left_eq]
    simp [tripleAt, List.getD_eq_getElem?_getD, List.getElem?_eq_getElem hm,
      List.getElem?_eq_getElem h1, List.getElem?_eq_getElem h2]

theorem selectedRelations_take (es : List Entity) (h : 2 ≤ es.length) :
    selectedRelations es = relation_types.take (min (es.length - 1) 4) := by
  unfold selectedRelations
  rcases eq_or_ne es.length 2 with h2 | h2
  · rw [if_pos h2, h2]
    norm_num
  · rw [if_neg h2]
    rfl

theorem selectedRelations_length (es : List Entity) (h : 2 ≤ es.length) :
    (selectedRelations es).length = min (es.length - 1) 4 := by
  rw [selectedRelations_take es h, List.length_take]
  have : relation_types.length = 4 := rfl
  rw [this]
  omega

theorem extract_relations_eq (es : List Entity) (em : List (String × String))
    (h : 2 ≤ es.length) :
    extract_relations es em =
      some (selectedRelations es,
        (List.range (min (es.length - 1) 5)).map (tripleAt es (selectedRelations es))) := by
  have h2 : ¬ es.length < 2 := by omega
  have hsel : 0 < (selectedRelations es).length := by
    rw [selectedRelations_length es h]; omega
  rw [extract_relations, if_neg h2,
    buildTriples_eq es (selectedRelations es) (min (es.length - 1) 5)
      (by omega) (by omega) hsel]

theorem extract_relations_short (es : List Entity) (em : List (String × String))
    (h : es.length < 2) : extract_relations es em = some ([], []) := by
  rw [extract_relations, if_pos h]

theorem extract_entities_fst (text : List Char) :
    (extract_entities text).1 = (pySetList (capWords text)).enum.map
      (fun p => { id := entityId p.1, label := p.2, type := entityTypeOf p.2 : Entity }) := rfl

theorem extract_entities_length (text : List Char) :
    (extract_entities text).1.length = (pySetList (capWords text)).length := by
  rw [extract_entities_fst, List.length_map, List.enum_length]

theorem extract_entities_map_label (text : List Char) :
    ((extract_entities text).1).map Entity.label = pySetList (capWords text) := by
  rw [extract_entities_fst, List.map_map]
  have : (Entity.label ∘ fun p : Nat × String =>
      { id := entityId p.1, label := p.2, type := entityTypeOf p.2 : Entity }) = Prod.snd := by
    funext p; rfl
  rw [this, List.enum_map_snd]

theorem extract_entities_map_id (text : List Char) :
    ((extract_entities text).1).map Entity.id
      = (List.range (pySetList (capWords text)).length).map entityId := by
  rw [extract_entities_fst, List.map_map]
  have : (Entity.id ∘ fun p : Nat × String =>
      { id := entityId p.1, label := p.2, type := entityTypeOf p.2 : Entity })
      = entityId ∘ Prod.fst := by
    funext p; rfl
  rw [this, ← List.map_map, List.enum_map_fst]

theorem extract_entities_getElem? (text : List Char) (i : Nat)
    (hi : i < (pySetList (capWords text)).length) :
    (extract_entities text).1[i]? =
      some { id := entityId i, label := (pySetList (capWords text)).getD i ""
           , type := entityTypeOf ((pySetList (capWords text)).getD i "") } := by
  rw [extract_entities_fst]
  have hm : i < ((pySetList (capWords text)).enum.map
      (fun p => { id := entityId p.1, label := p.2,
                  type := entityTypeOf p.2 : Entity })).length := by
    rw [List.length_map, List.enum_length]; exact hi
  have hie : i < (pySetList (capWords text)).enum.length := by
    rwa [List.enum_length]
  rw [List.getElem?_eq_getElem hm, List.getElem_map, List.getElem_enum]
  simp [List.getD_eq_getElem?_getD, List.getElem?_eq_getElem hi]

/-! ### JSON model

The script serializes the fragment dict with `json.dump` and a consumer
reads it back with `json.load`.  We model JSON values as a tree (`Json`);
the byte-level rendering and parsing are the standard library's and are
treated as exact inverses on trees.  Decoding is by field name, so it does
not depend on the order of an object's fields. -/

inductive Json where
  | null : Json
  | bool : Bool → Json
  | num : Int → Json
  | str : String → Json
  | arr : List Json → Json
  | obj : List (String × Json) → Json

/-- The fragment dict built by `main`. -/
structure Fragment where
  note_id : String
  entities : List Entity
  relations : List String
  triples : List Triple
deriving DecidableEq, Repr

def entityToJson (e : Entity) : Json :=
  .obj [("id", .str e.id), ("label", .str e.label), ("type", .str e.type)]

def tripleToJson (t : Triple) : Json :=
  .obj [("subject", .str t.subject), ("predicate", .str t.predicate),
        ("object", .str t.object)]

/-- The key/value pairs of the serialized fragment, in source order. -/
def fragmentFields (f : Fragment) : List (String × Json) :=
  [("note_id", .str f.note_id),
   ("entities", .arr (f.entities.map entityToJson)),
   ("relations", .arr (f.relations.map Json.str)),
   ("triples", .arr (f.triples.map tripleToJson))]

def fragmentToJson (f : Fragment) : Json := .obj (fragmentFields f)

/-- Field lookup by name in a JSON object (first match). -/
def jLookup (k : String) : List (String × Json) → Option Json
  | [] => none
  | (k', v) :: rest => if k' = k then some v else jLookup k rest

def jStr : Json → Option String
  | .str s => some s
  | _ => none

def entityOfJson : Json → Option Entity
  | .obj fs =>
    match jLookup "id" fs, jLookup "label" fs, jLookup "type" fs with
    | some (.str i), some (.str l), some (.str t) => some ⟨i, l, t⟩
    | _, _, _ => none
  | _ => none

def tripleOfJson : Json → Option Triple
  | .obj fs =>
    match jLookup "subject" fs, jLookup "predicate" fs, jLookup "object" fs with
    | some (.str s), some (.str p), some (.str o) => some ⟨s, p, o⟩
    | _, _, _ => none
  | _ => none

def decodeList {α : Type} (dec : Json → Option α) : List Json → Option (List α)
  | [] => some []
  | j :: rest =>
    match dec j, decodeList dec rest with
    | some a, some as => some (a :: as)
    | _, _ => none

def jArr : Json → Option (List Json)
  | .arr l => some l
  | _ => none

def fragmentOfJson : Json → Option Fragment
  | .obj fs => do
    let nidJ ← jLookup "note_id" fs
    let nid ← jStr nidJ
    let entJ ← jLookup "entities" fs
    let entL ← jArr entJ
    let es ← decodeList entityOfJson entL
    let relJ ← jLookup "relations" fs
    let relL ← jArr relJ
    let rs ← decodeList jStr relL
    let triJ ← jLookup "triples" fs
    let triL ← jArr triJ
    let ts ← decodeList tripleOfJson triL
    some ⟨nid, es, rs, ts⟩
  | _ => none

theorem decodeList_map {α : Type} (dec : Json → Option α) (enc : α → Json)
    (h : ∀ a, dec (enc a) = some a) :
    ∀ l : List α, decodeList dec (l.map enc) = some l := by
  intro l
  induction l with
  | nil => rfl
  | cons a l ih => simp [decodeList, h a, ih]

theorem entityOfJson_toJson (e : Entity) : entityOfJson (entityToJson e) = some e := rfl

theorem tripleOfJson_toJson (t : Triple) : tripleOfJson (tripleToJson t) = some t := rfl

theorem jStr_str (s : String) : jStr (Json.str s) = some s := rfl

theorem jLookup_perm {l1 l2 : List (String × Json)} (hp : l1.Perm l2) :
    (l1.map Prod.fst).Nodup → ∀ k, jLookup k l1 = jLookup k l2 := by
  induction hp with
  | nil => intro _ _; rfl
  | cons x _ ih =>
    intro hnd k
    obtain ⟨a, va⟩ := x
    simp only [jLookup]
    by_cases hk : a = k
    · rw [if_pos hk, if_pos hk]
    · rw [if_neg hk, if_neg hk]
      exact ih (List.nodup_cons.mp (by simpa using hnd)).2 k
  | swap x y l =>
    intro hnd k
    obtain ⟨a, va⟩ := x
    obtain ⟨b, vb⟩ := y
    have hba : b ≠ a := by
      simp only [List.map_cons, List.nodup_cons, List.mem_cons] at hnd
      exact fun h => hnd.1 (Or.inl h)
    simp only [jLookup]
    by_cases hbk : b = k
    · have hak : ¬ a = k := fun h => hba (by rw [hbk, h])
      rw [if_pos hbk, if_neg hak, if_pos hbk]
    · by_cases hak : a = k
      · rw [if_neg hbk, if_pos hak, if_pos hak]
      · rw [if_neg hbk, if_neg hak, if_neg hak, if_neg hbk]
  | trans h1 _ ih1 ih2 =>
    intro hnd k
    rw [ih1 hnd k, ih2 (((h1.map Prod.fst).nodup_iff).mp hnd) k]

theorem fragmentFields_keys_nodup (f : Fragment) :
    ((fragmentFields f).map Prod.fst).Nodup := by
  simp [fragmentFields]

/-! ### Claim theorems -/

/-- C1: for every entity list of length `N ≥ 2`, `extract_relations` returns
a triples list of length exactly `min (N-1) 5`; triple `i` has subject the id
of entity `i`, object the id of entity `(i+1) mod N`, and predicate
`selected_relations[i mod len(selected_relations)]`; consequently every
subject and object id of the triples is drawn from the entity id set. -/
theorem extract_relations_shape (es : List Entity) (em : List (String × String))
    (h : 2 ≤ es.length) :
    ∃ rels triples, extract_relations es em = some (rels, triples) ∧
      triples.length = min (es.length - 1) 5 ∧
      (∀ i, i < triples.length →
        triples.getD i defaultTriple =
          { subject := (es.getD i defaultEntity).id
          , predicate := rels.getD (i % rels.length) ""
          , object := (es.getD ((i + 1) % es.length) defaultEntity).id }) ∧
      (∀ t ∈ triples, t.subject ∈ es.map Entity.id ∧ t.object ∈ es.map Entity.id) := by
  refine ⟨selectedRelations es,
    (List.range (min (es.length - 1) 5)).map (tripleAt es (selectedRelations es)),
    extract_relations_eq es em h, ?_, ?_, ?_⟩
  · rw [List.length_map, List.length_range]
  · intro i hi
    rw [List.length_map, List.length_range] at hi
    rw [List.getD_eq_getElem?_getD,
      List.getElem?_eq_getElem (by simpa using hi)]
    simp [List.getElem_map, List.getElem_range, tripleAt]
  · intro t ht
    rw [List.mem_map] at ht
    obtain ⟨i, hi, rfl⟩ := ht
    rw [List.mem_range] at hi
    have hi1 : i < es.length := by omega
    have hi2 : (i + 1) % es.length < es.length := Nat.mod_lt _ (by omega)
    constructor
    · rw [List.mem_map]
      refine ⟨es.getD i defaultEntity, ?_, rfl⟩
      rw [List.getD_eq_getElem?_getD, List.getElem?_eq_getElem hi1]
      exact List.getElem_mem hi1
    · rw [List.mem_map]
      refine ⟨es.getD ((i + 1) % es.length) defaultEntity, ?_, rfl⟩
      rw [List.getD_eq_getElem?_getD, List.getElem?_eq_getElem hi2]
      exact List.getElem_mem hi2

def sampleEntities : List Entity :=
  [⟨"e1", "Alpha", "Concept"⟩, ⟨"e2", "Beta", "Concept"⟩, ⟨"e3", "Gamma", "Concept"⟩]

/-- Witness for C1 at a concrete 3-entity list. -/
theorem extract_relations_shape_witness :
    ∃ rels triples, extract_relations sampleEntities [] = some (rels, triples) ∧
      triples.length = min (sampleEntities.length - 1) 5 ∧
      (∀ i, i < triples.length →
        triples.getD i defaultTriple =
          { subject := (sampleEntities.getD i defaultEntity).id
          , predicate := rels.getD (i % rels.length) ""
          , object := (sampleEntities.getD ((i + 1) % sampleEntities.length)
              defaultEntity).id }) ∧
      (∀ t ∈ triples, t.subject ∈ sampleEntities.map Entity.id ∧
        t.object ∈ sampleEntities.map Entity.id) :=
  extract_relations_shape sampleEntities [] (by decide)

/-- C2: for every entity list of length `N ≥ 2`, the returned relations list
is the prefix of the fixed 4-element relation-type list of length
`min (N-1) 4`; in particular for `N = 2` it is exactly `["relates_to"]`. -/
theorem selected_relations_spec (es : List Entity) (em : List (String × String))
    (h : 2 ≤ es.length) :
    ∃ triples, extract_relations es em
        = some (relation_types.take (min (es.length - 1) 4), triples) ∧
      (relation_types.take (min (es.length - 1) 4)).length = min (es.length - 1) 4 ∧
      (es.length = 2 → relation_types.take (min (es.length - 1) 4) = ["relates_to"]) := by
  refine ⟨(List.range (min (es.length - 1) 5)).map (tripleAt es (selectedRelations es)),
    ?_, ?_, ?_⟩
  · rw [extract_relations_eq es em h, selectedRelations_take es h]
  · rw [← selectedRelations_take es h]
    exact selectedRelations_length es h
  · intro h2
    rw [h2]
    rfl

/-- Witness for C2 at a concrete 2-entity list. -/
theorem selected_relations_spec_witness :
    ∃ triples, extract_relations (sampleEntities.take 2) []
        = some (relation_types.take (min ((sampleEntities.take 2).length - 1) 4),
            triples) ∧
      (relation_types.take (min ((sampleEntities.take 2).length - 1) 4)).length
        = min ((sampleEntities.take 2).length - 1) 4 ∧
      ((sampleEntities.take 2).length = 2 →
        relation_types.take (min ((sampleEntities.take 2).length - 1) 4)
          = ["relates_to"]) :=
  selected_relations_spec (sampleEntities.take 2) [] (by decide)

/-- C3: with fewer than 2 entities — in particular for any text with fewer
than 2 capitalized-word tokens, which yields fewer than 2 entities — the
Mock Generator produces an empty relations list and an empty triples list. -/
theorem empty_relations_of_few_entities :
    (∀ (es : List Entity) (em : List (String × String)), es.length < 2 →
      extract_relations es em = some ([], [])) ∧
    (∀ text : List Char, (capWords text).length < 2 →
      (extract_entities text).1.length < 2 ∧
      extract_relations (extract_entities text).1 (extract_entities text).2
        = some ([], [])) := by
  refine ⟨extract_relations_short, ?_⟩
  intro text ht
  have hlen : (extract_entities text).1.length < 2 := by
    rw [extract_entities_length]
    exact lt_of_le_of_lt (pySetList_length_le _) ht
  exact ⟨hlen, extract_relations_short _ _ hlen⟩

/-- Witness for C3: the empty entity list, and a text with no capitalized
word. -/
theorem empty_relations_of_few_entities_witness :
    extract_relations [] [] = some ([], []) ∧
    extract_relations (extract_entities "hello world".data).1
      (extract_entities "hello world".data).2 = some ([], []) :=
  ⟨empty_relations_of_few_entities.1 [] [] (by decide),
   (empty_relations_of_few_entities.2 "hello world".data (by decide)).2⟩

/-- C4: for every entity list of length exactly 2, `extract_relations`
returns one relation and one triple, whose subject is the id of the first
entity and whose object is the id of the second. -/
theorem two_entities_single_triple (a b : Entity) (em : List (String × String)) :
    extract_relations [a, b] em =
      some (["relates_to"],
        [{ subject := a.id, predicate := "relates_to", object := b.id }]) := by
  rfl

/-- C7: `extract_entities` and `extract_relations` never fail: for every
entity list (in particular the one extracted from any input text) every list
access in the triple loop is in bounds, so `extract_relations` returns
`some` result; empty or malformed text simply yields fewer entities. -/
theorem pipeline_total :
    (∀ (es : List Entity) (em : List (String × String)),
      ∃ r, extract_relations es em = some r) ∧
    (∀ text : List Char,
      ∃ r, extract_relations (extract_entities text).1
        (extract_entities text).2 = some r) := by
  have h1 : ∀ (es : List Entity) (em : List (String × String)),
      ∃ r, extract_relations es em = some r := by
    intro es em
    rcases Nat.lt_or_ge es.length 2 with h | h
    · exact ⟨([], []), extract_relations_short es em h⟩
    · exact ⟨_, extract_relations_eq es em h⟩
  exact ⟨h1, fun text => h1 _ _⟩

/-- C9: when the entity ids are pairwise distinct, every produced triple has
subject id different from its object id. -/
theorem triple_subject_ne_object (es : List Entity) (em : List (String × String))
    (rels : List String) (triples : List Triple)
    (hnd : (es.map Entity.id).Nodup)
    (hr : extract_relations es em = some (rels, triples)) :
    ∀ t ∈ triples, t.subject ≠ t.object := by
  rcases Nat.lt_or_ge es.length 2 with h | h
  · rw [extract_relations_short es em h] at hr
    injection hr with hr'
    injection hr' with hrels htriples
    subst htriples
    intro t ht
    simp at ht
  · rw [extract_relations_eq es em h] at hr
    injection hr with hr'
    injection hr' with hrels htriples
    subst hrels
    subst htriples
    intro t ht
    rw [List.mem_map] at ht
    obtain ⟨i, hi, rfl⟩ := ht
    rw [List.mem_range] at hi
    have hi1 : i < es.length := by omega
    have hi2 : (i + 1) % es.length < es.length := Nat.mod_lt _ (by omega)
    have hne : i ≠ (i + 1) % es.length := by
      have : (i + 1) % es.length = i + 1 := Nat.mod_eq_of_lt (by omega)
      omega
    intro hco
    have hb1 : i < (es.map Entity.id).length := by simpa using hi1
    have hb2 : (i + 1) % es.length < (es.map Entity.id).length := by simpa using hi2
    have hgi : (es.map Entity.id)[i] = (es.map Entity.id)[(i + 1) % es.length] := by
      rw [List.getElem_map, List.getElem_map]
      have hs : (tripleAt es (selectedRelations es) i).subject = es[i].id := by
        simp [tripleAt, List.getD_eq_getElem?_getD, List.getElem?_eq_getElem hi1]
      have ho : (tripleAt es (selectedRelations es) i).object
          = es[(i + 1) % es.length].id := by
        simp [tripleAt, List.getD_eq_getElem?_getD, List.getElem?_eq_getElem hi2]
      rw [← hs, ← ho, hco]
    exact hne ((List.Nodup.getElem_inj_iff hnd).mp hgi)

/-- Witness for C9 at a concrete 3-entity list with distinct ids and the
first produced triple. -/
theorem triple_subject_ne_object_witness :
    ({ subject := "e1", predicate := "relates_to", object := "e2" : Triple }).subject
      ≠ ({ subject := "e1", predicate := "relates_to", object := "e2" : Triple }).object :=
  triple_subject_ne_object sampleEntities [] ["relates_to", "part_of"]
    [⟨"e1", "relates_to", "e2"⟩, ⟨"e2", "part_of", "e3"⟩] (by decide) (by decide)
    ⟨"e1", "relates_to", "e2"⟩ (by decide)

/-- C10: every triple's predicate is an element of the returned relations
list. -/
theorem triple_predicate_mem_relations (es : List Entity)
    (em : List (String × String)) (rels : List String) (triples : List Triple)
    (hr : extract_relations es em = some (rels, triples)) :
    ∀ t ∈ triples, t.predicate ∈ rels := by
  rcases Nat.lt_or_ge es.length 2 with h | h
  · rw [extract_relations_short es em h] at hr
    injection hr with hr'
    injection hr' with hrels htriples
    subst htriples
    intro t ht
    simp at ht
  · rw [extract_relations_eq es em h] at hr
    injection hr with hr'
    injection hr' with hrels htriples
    subst hrels
    subst htriples
    intro t ht
    rw [List.mem_map] at ht
    obtain ⟨i, hi, rfl⟩ := ht
    have hsel : 0 < (selectedRelations es).length := by
      rw [selectedRelations_length es h]; omega
    have hmod : i % (selectedRelations es).length < (selectedRelations es).length :=
      Nat.mod_lt _ hsel
    have hp : (tripleAt es (selectedRelations es) i).predicate
        = (selectedRelations es)[i % (selectedRelations es).length] := by
      simp [tripleAt, List.getD_eq_getElem?_getD, List.getElem?_eq_getElem hmod]
    rw [hp]
    exact List.getElem_mem hmod

/-- Witness for C10 at a concrete 3-entity list and the second produced
triple. -/
theorem triple_predicate_mem_relations_witness :
    ({ subject := "e2", predicate := "part_of", object := "e3" : Triple }).predicate
      ∈ ["relates_to", "part_of"] :=
  triple_predicate_mem_relations sampleEntities [] ["relates_to", "part_of"]
    [⟨"e1", "relates_to", "e2"⟩, ⟨"e2", "part_of", "e3"⟩] (by decide)
    ⟨"e2", "part_of", "e3"⟩ (by decide)

/-- C5: entity type assignment is a pure function of the label determined by
the four fixed lookup lists: days → "Day", months → "Month", cities →
"City", countries → "Country", anything else → "Concept"; and every entity
built by `extract_entities` carries exactly the type computed from its own
label. -/
theorem entity_type_lookup (w : String) :
    (w ∈ days → entityTypeOf w = "Day") ∧
    (w ∈ months → entityTypeOf w = "Month") ∧
    (w ∈ cities → entityTypeOf w = "City") ∧
    (w ∈ countries → entityTypeOf w = "Country") ∧
    (w ∉ days → w ∉ months → w ∉ cities → w ∉ countries →
      entityTypeOf w = "Concept") ∧
    (∀ text : List Char, ∀ e ∈ (extract_entities text).1,
      e.type = entityTypeOf e.label) := by
  refine ⟨?_, ?_, ?_, ?_, ?_, ?_⟩
  · intro h
    rw [entityTypeOf, if_pos h]
  · intro h
    fin_cases h <;> decide
  · intro h
    fin_cases h <;> decide
  · intro h
    fin_cases h <;> decide
  · intro h1 h2 h3 h4
    rw [entityTypeOf, if_neg h1, if_neg h2, if_neg h3, if_neg h4]
  · intro text e he
    rw [extract_entities_fst] at he
    rw [List.mem_map] at he
    obtain ⟨p, hp, rfl⟩ := he
    rfl

/-- Witness for C5 at concrete labels from each lookup class. -/
theorem entity_type_lookup_witness :
    entityTypeOf "Monday" = "Day" ∧ entityTypeOf "Berlin" = "City" ∧
    entityTypeOf "Zebra" = "Concept" :=
  ⟨(entity_type_lookup "Monday").1 (by decide),
   (entity_type_lookup "Berlin").2.2.1 (by decide),
   (entity_type_lookup "Zebra").2.2.2.2.1 (by decide) (by decide) (by decide)
     (by decide)⟩

/-- C6: the labels of the extracted entities are exactly the deduplicated
capitalized-word tokens (each label appears once), ids are assigned
sequentially as `e1, e2, ...` in iteration order, and hence the entity ids
are pairwise distinct. -/
theorem entity_ids_sequential_nodup (text : List Char) :
    ((extract_entities text).1).map Entity.label = pySetList (capWords text) ∧
    (((extract_entities text).1).map Entity.label).Nodup ∧
    (∀ i, i < (extract_entities text).1.length →
      (extract_entities text).1[i]? = some
        { id := entityId i
        , label := (pySetList (capWords text)).getD i ""
        , type := entityTypeOf ((pySetList (capWords text)).getD i "") }) ∧
    (((extract_entities text).1).map Entity.id).Nodup := by
  refine ⟨extract_entities_map_label text, ?_, ?_, ?_⟩
  · rw [extract_entities_map_label text]
    exact pySetList_nodup _
  · intro i hi
    exact extract_entities_getElem? text i (by rwa [extract_entities_length] at hi)
  · rw [extract_entities_map_id text]
    exact List.Nodup.map entityId_inj (List.nodup_range _)

/-- Witness for C6 at a concrete text with two capitalized words. -/
theorem entity_ids_sequential_nodup_witness :
    (extract_entities "Paris June".data).1[0]? = some
      { id := entityId 0
      , label := (pySetList (capWords "Paris June".data)).getD 0 ""
      , type := entityTypeOf ((pySetList (capWords "Paris June".data)).getD 0 "") } :=
  (entity_ids_sequential_nodup "Paris June".data).2.2.1 0 (by decide)

/-- C8: serializing a Fragment to JSON and decoding it back (decoding is by
field name, so any field order decodes alike) yields the original Fragment. -/
theorem fragment_json_roundtrip (f : Fragment) :
    fragmentOfJson (fragmentToJson f) = some f ∧
    ∀ fs : List (String × Json), (fragmentFields f).Perm fs →
      fragmentOfJson (Json.obj fs) = some f := by
  have h1 : jLookup "note_id" (fragmentFields f) = some (.str f.note_id) := rfl
  have h2 : jLookup "entities" (fragmentFields f)
      = some (.arr (f.entities.map entityToJson)) := rfl
  have h3 : jLookup "relations" (fragmentFields f)
      = some (.arr (f.relations.map Json.str)) := rfl
  have h4 : jLookup "triples" (fragmentFields f)
      = some (.arr (f.triples.map tripleToJson)) := rfl
  have hbase : fragmentOfJson (Json.obj (fragmentFields f)) = some f := by
    simp only [fragmentOfJson, h1, h2, h3, h4, jStr, jArr,
      Option.bind_eq_bind, Option.some_bind,
      decodeList_map entityOfJson entityToJson entityOfJson_toJson,
      decodeList_map jStr Json.str jStr_str,
      decodeList_map tripleOfJson tripleToJson tripleOfJson_toJson]
  refine ⟨hbase, ?_⟩
  intro fs hp
  have hl := jLookup_perm hp (fragmentFields_keys_nodup f)
  have hsame : fragmentOfJson (Json.obj fs)
      = fragmentOfJson (Json.obj (fragmentFields f)) := by
    simp only [fragmentOfJson]
    rw [← hl "note_id", ← hl "entities", ← hl "relations", ← hl "triples"]
  rw [hsame]
  exact hbase

def sampleFragment : Fragment :=
  { note_id := "note1"
  , entities := [⟨"e1", "Paris", "City"⟩, ⟨"e2", "June", "Month"⟩]
  , relations := ["relates_to"]
  , triples := [⟨"e1", "relates_to", "e2"⟩] }

/-- Witness for C8: a concrete fragment decoded from its fields in reversed
order. -/
theorem fragment_json_roundtrip_witness :
    fragmentOfJson (Json.obj (fragmentFields sampleFragment).reverse)
      = some sampleFragment :=
  (fragment_json_roundtrip sampleFragment).2 _ (List.reverse_perm _).symm
